import Mathlib

/-!
Verification of the gameplay simulation layer of the Deluge survival sandbox.

The development shallowly embeds the economy state (src/state), the damageable
registry (src/interaction), the creature behavior controller (src/mobs) and the
player controller (src/player) and proves the specified properties about them.
Machine numbers are modelled by exact rationals (economy, registry, creatures)
and by real numbers (player movement, which normalizes vectors).
-/

/-! ### Economy state (GameState, src/state) -/

inductive DamageCategory
  | wood | stone | mob | animal | generic
deriving DecidableEq, Repr

inductive ResourceType
  | wood | stone | generic
deriving DecidableEq, Repr

def ResourceType.toCategory : ResourceType → DamageCategory
  | .wood => .wood
  | .stone => .stone
  | .generic => .generic

/-- Economy state: inventory counts (a total map, absent entries read 0 just as
the source reads the map with a 0 fallback), the skill point balance, the
per-category damage bonus table, the registered change subscribers (as opaque
ids in registration order) and the log of subscriber invocations so far. -/
structure GameState where
  inventory : String → ℚ
  skillPoints : ℚ
  damageBonus : DamageCategory → ℚ
  listeners : List Nat
  invocations : List Nat

/-- Pointwise map update, the model of `map.set(k, v)`. -/
def mapSet {α : Type} {κ : Type} [DecidableEq κ] (f : κ → α) (k : κ) (v : α) : κ → α :=
  fun x => if x = k then v else f x

/-- Model of `notify()`: every registered listener is invoked once, in
registration order. -/
def GameState.notify (s : GameState) : GameState :=
  { s with invocations := s.invocations ++ s.listeners }

def GameState.getResource (s : GameState) (name : String) : ℚ :=
  s.inventory name

def GameState.addResource (s : GameState) (name : String) (amount : ℚ) : GameState :=
  GameState.notify
    { s with inventory := mapSet s.inventory name (s.getResource name + amount) }

/-- The deduction loop of `spendResources`: each listed item is set to its
current count minus the needed amount, in order. -/
def spendList (s : GameState) (cost : List (String × ℚ)) : GameState :=
  cost.foldl
    (fun acc p => { acc with inventory := mapSet acc.inventory p.1 (acc.getResource p.1 - p.2) })
    s

/-- Model of `GameState.spendResources`: verify all entries first, then deduct
every entry and notify. -/
def GameState.spendResources (s : GameState) (cost : List (String × ℚ)) : Bool × GameState :=
  if cost.any (fun p => decide (s.getResource p.1 < p.2)) then (false, s)
  else (true, (spendList s cost).notify)

def GameState.addSkillPoints (s : GameState) (amount : ℚ) : GameState :=
  GameState.notify { s with skillPoints := s.skillPoints + amount }

def GameState.spendSkillPoints (s : GameState) (amount : ℚ) : Bool × GameState :=
  if s.skillPoints < amount then (false, s)
  else (true, GameState.notify { s with skillPoints := s.skillPoints - amount })

def GameState.getDamageBonus (s : GameState) (c : DamageCategory) : ℚ :=
  s.damageBonus c

def GameState.addDamageBonus (s : GameState) (c : DamageCategory) (amount : ℚ) : GameState :=
  GameState.notify { s with damageBonus := mapSet s.damageBonus c (s.damageBonus c + amount) }

def emptyState : GameState :=
  { inventory := fun _ => 0
    skillPoints := 0
    damageBonus := fun _ => 0
    listeners := []
    invocations := [] }

/-! ### Damageable registry (InteractionSystem, src/interaction) -/

inductive DamageableKind
  | resource | mob | animal
deriving DecidableEq, Repr

/-- Combat record of one registered handle, mirroring the source
DamageableState interface. -/
structure DamageableState where
  hp : ℚ
  kind : DamageableKind
  resourceType : Option ResourceType
  reward : Option (List (String × ℚ))
  skillPoints : Option ℚ
deriving DecidableEq, Repr

/-- Side effects of one handleHit call, in the order they are issued:
a dispose request to the rendering collaborator, reward deposits, and the
skill point grant. -/
inductive HitEvent
  | disposeEv
  | depositEv (item : String) (qty : ℚ)
  | skillEv (amount : ℚ)
deriving DecidableEq, Repr

/-- Combined state of the registry and the economy it deposits into. -/
structure World where
  econ : GameState
  targets : String → Option DamageableState

def emptyWorld : World :=
  { econ := emptyState, targets := fun _ => none }

def InteractionSystem.register (w : World) (h : String) (cfg : DamageableState) : World :=
  { w with targets := mapSet w.targets h (some cfg) }

/-- Model of the private getDamage: category comes from the override, else the
resource type, else the kind; resources take base damage scaled by 0.7 before
the flat bonus, everything else takes the plain base plus bonus. -/
def InteractionSystem.getDamage (econ : GameState) (baseDamage : ℚ)
    (st : DamageableState) (overrideCategory : Option DamageCategory) : ℚ :=
  let category : DamageCategory :=
    match overrideCategory with
    | some c => c
    | none =>
      match st.resourceType with
      | some rt => rt.toCategory
      | none =>
        match st.kind with
        | .mob => DamageCategory.mob
        | .animal => DamageCategory.animal
        | .resource => DamageCategory.generic
  let bonus := econ.getDamageBonus category
  if st.kind = DamageableKind.resource then baseDamage * (7 / 10) + bonus
  else baseDamage + bonus

/-- Economy state after depositing a reward table item by item via
addResource. -/
def depositState (g : GameState) (r : List (String × ℚ)) : GameState :=
  r.foldl (fun acc p => acc.addResource p.1 p.2) g

/-- Deposit events of a reward table, in table order. -/
def depositTrace (r : List (String × ℚ)) : List HitEvent :=
  r.map (fun p => HitEvent.depositEv p.1 p.2)

/-- Economy state after the skill point grant; the source guards with a
truthiness check, so an absent or zero grant does nothing. -/
def skillStateOf (g : GameState) (sp : Option ℚ) : GameState :=
  match sp with
  | none => g
  | some v => if v = 0 then g else g.addSkillPoints v

def skillTraceOf (sp : Option ℚ) : List HitEvent :=
  match sp with
  | none => []
  | some v => if v = 0 then [] else [HitEvent.skillEv v]

/-- Model of `InteractionSystem.handleHit`. A stale handle is a no-op. On a
hit that leaves hit points positive only the record is updated. On death the
mesh dispose request is issued, the record is removed, the reward table is
deposited and the skill points are granted. The returned list is the ordered
trace of collaborator/economy side effects of this call. -/
def InteractionSystem.handleHit (w : World) (h : String) (baseDamage : ℚ)
    (overrideCategory : Option DamageCategory) : World × List HitEvent :=
  match w.targets h with
  | none => (w, [])
  | some st =>
    let damage := InteractionSystem.getDamage w.econ baseDamage st overrideCategory
    let hp' := st.hp - damage
    if hp' ≤ 0 then
      let r := st.reward.getD []
      ({ econ := skillStateOf (depositState w.econ r) st.skillPoints
         targets := mapSet w.targets h none },
       HitEvent.disposeEv :: (depositTrace r ++ skillTraceOf st.skillPoints))
    else
      ({ w with targets := mapSet w.targets h (some { st with hp := hp' }) }, [])

/-- Modelled from the spec: the sources under src do not contain the
Damageable Registry unregister operation; spec section 4.2 describes it as
removing a record without granting rewards, which is what this definition
does. -/
def InteractionSystem.unregister (w : World) (h : String) : World :=
  { w with targets := mapSet w.targets h none }

/-- One operation against the registry, used to talk about arbitrary
operation sequences. -/
inductive RegistryOp
  | reg (h : String) (cfg : DamageableState)
  | hit (h : String) (baseDamage : ℚ) (overrideCategory : Option DamageCategory)
  | unreg (h : String)

def applyOp (w : World) : RegistryOp → World
  | .reg h cfg => InteractionSystem.register w h cfg
  | .hit h b oc => (InteractionSystem.handleHit w h b oc).1
  | .unreg h => InteractionSystem.unregister w h

def runOps (w : World) (ops : List RegistryOp) : World :=
  ops.foldl applyOp w

/-! ### Creature behavior controller (MobManager, src/mobs) -/

structure Vec3Q where
  x : ℚ
  y : ℚ
  z : ℚ
deriving DecidableEq, Repr

def Vec3Q.scale (v : Vec3Q) (s : ℚ) : Vec3Q :=
  ⟨v.x * s, v.y * s, v.z * s⟩

inductive CreatureKind
  | mob | animal
deriving DecidableEq, Repr

/-- Per-creature AI/locomotion record; the position stands for the position of
the creature's visual object. -/
structure MobState where
  handle : String
  pos : Vec3Q
  dir : Vec3Q
  speed : ℚ
  changeTimer : ℚ
  kind : CreatureKind
deriving DecidableEq, Repr

/-- External collaborators consulted during one MobManager tick: which visual
objects have been destroyed, the random retarget draws, and the physics result
of a collision-aware move (given the current position and the requested
displacement). -/
structure TickOracle where
  disposed : String → Bool
  newDir : String → Vec3Q
  newTimer : String → ℚ
  moveResult : String → Vec3Q → Vec3Q → Vec3Q

/-- Model of `MobManager.update` for one tick: prune disposed creatures, count
down and possibly redraw the wander heading, apply the collision-aware move and
clamp the horizontal position into the playable square bounds. -/
def MobManager.update (halfSize : ℚ) (o : TickOracle) (delta : ℚ)
    (mobs : List MobState) : List MobState :=
  (mobs.filter (fun m => !(o.disposed m.handle))).map (fun m =>
    let t := m.changeTimer - delta
    let dir := if t ≤ 0 then o.newDir m.handle else m.dir
    let timer := if t ≤ 0 then o.newTimer m.handle else t
    let move := dir.scale (m.speed * delta)
    let p := o.moveResult m.handle m.pos move
    { m with
      dir := dir
      changeTimer := timer
      pos := ⟨min halfSize (max (-halfSize) p.x), p.y, min halfSize (max (-halfSize) p.z)⟩ })

/-- A whole sequence of ticks, each with its own oracles and frame delta. -/
def MobManager.runTicks (halfSize : ℚ) (ticks : List (TickOracle × ℚ))
    (mobs : List MobState) : List MobState :=
  ticks.foldl (fun ms t => MobManager.update halfSize t.1 t.2 ms) mobs

/-! ### Player controller (Player, src/player) -/

structure Vec3 where
  x : ℝ
  y : ℝ
  z : ℝ

def Vec3.zero : Vec3 := ⟨0, 0, 0⟩

def Vec3.addV (a b : Vec3) : Vec3 := ⟨a.x + b.x, a.y + b.y, a.z + b.z⟩

def Vec3.subV (a b : Vec3) : Vec3 := ⟨a.x - b.x, a.y - b.y, a.z - b.z⟩

def Vec3.scale (v : Vec3) (s : ℝ) : Vec3 := ⟨v.x * s, v.y * s, v.z * s⟩

def Vec3.lengthSquared (v : Vec3) : ℝ := v.x * v.x + v.y * v.y + v.z * v.z

noncomputable def Vec3.length (v : Vec3) : ℝ := Real.sqrt v.lengthSquared

/-- Vector normalization as the engine implements it: the zero vector is left
unchanged, any other vector is scaled by the inverse of its length. -/
noncomputable def Vec3.normalizeV (v : Vec3) : Vec3 :=
  if v.length = 0 then v else v.scale (1 / v.length)

/-- Linear interpolation from a toward b with factor t, componentwise. -/
def Vec3.lerpV (a b : Vec3) (t : ℝ) : Vec3 :=
  ⟨a.x + (b.x - a.x) * t, a.y + (b.y - a.y) * t, a.z + (b.z - a.z) * t⟩

/-- The pressed-key state the update loop reads. -/
structure InputMap where
  w : Bool
  s : Bool
  a : Bool
  d : Bool
  shift : Bool
  space : Bool

/-- Movement tuning fields of the Player class. -/
structure PlayerConsts where
  baseSpeed : ℝ
  sprintMultiplier : ℝ
  acceleration : ℝ
  damping : ℝ
  jumpStrength : ℝ

noncomputable def defaultPlayerConsts : PlayerConsts := ⟨12, 3 / 2, 40, 8, 13 / 2⟩

noncomputable def fireRate : ℝ := 18 / 100

def bulletDamage : ℚ := 24

/-- Camera axis flattened to the XZ plane and normalized, as in the update
loop. -/
noncomputable def flattenNormalize (v : Vec3) : Vec3 :=
  Vec3.normalizeV ⟨v.x, 0, v.z⟩

/-- The raw movement direction accumulated from the four directional keys. -/
def moveDirRaw (i : InputMap) (forward right : Vec3) : Vec3 :=
  let m0 := Vec3.zero
  let m1 := if i.w then m0.addV forward else m0
  let m2 := if i.s then m1.subV forward else m1
  let m3 := if i.d then m2.addV right else m2
  if i.a then m3.subV right else m3

/-- The normalized movement direction the update loop works with. -/
noncomputable def moveDirOf (i : InputMap) (camForward camRight : Vec3) : Vec3 :=
  (moveDirRaw i (flattenNormalize camForward) (flattenNormalize camRight)).normalizeV

/-- The target velocity: movement direction scaled by the (possibly sprinting)
target speed, keeping the current vertical velocity. -/
noncomputable def targetVelocity (c : PlayerConsts) (i : InputMap)
    (camForward camRight currentVel : Vec3) : Vec3 :=
  let moveDir := moveDirOf i camForward camRight
  let targetSpeed := c.baseSpeed * (if i.shift then c.sprintMultiplier else 1)
  let tv := moveDir.scale targetSpeed
  ⟨tv.x, currentVel.y, tv.z⟩

/-- Model of `Player.update` for one frame. Inputs that the source reads from
collaborators (camera axes, physics velocity, ground probe, frame delta) are
parameters. The result is the new fire cooldown together with the velocity
handed back to the physics body. -/
noncomputable def Player.update (c : PlayerConsts) (fireCooldown : ℝ) (i : InputMap)
    (camForward camRight currentVel : Vec3) (grounded : Bool) (delta : ℝ) : ℝ × Vec3 :=
  let moveDir := moveDirOf i camForward camRight
  let targetVel := targetVelocity c i camForward camRight currentVel
  let cooldown' := max 0 (fireCooldown - delta)
  let blend := min 1 (c.acceleration * delta)
  let v1 := Vec3.lerpV currentVel targetVel blend
  let damp := max 0 (1 - c.damping * delta)
  let v2 := if moveDir.lengthSquared = 0 then ⟨v1.x * damp, v1.y, v1.z * damp⟩ else v1
  let v3 :=
    if i.space = true ∧ grounded = true ∧ |currentVel.y| < 2 / 5 then
      ⟨v2.x, c.jumpStrength, v2.z⟩
    else v2
  let v4 :=
    if grounded = true ∧ v3.y > 0 ∧ i.space = false then ⟨v3.x, 0, v3.z⟩ else v3
  let v5 := if grounded = true ∧ i.space = false then ⟨v4.x, 0, v4.z⟩ else v4
  (cooldown', v5)

/-- Result of one primary-action attempt: the new cooldown, the possibly
updated world, and whether a raycast was performed. -/
structure ShotResult where
  fireCooldown : ℝ
  world : World
  raycast : Bool

/-- Model of `Player.tryShoot`: ignored while the cooldown is positive,
otherwise the cooldown is reset to the fire rate, one raycast is performed
(its result is the oracle argument) and a hit target takes the bullet
damage. -/
noncomputable def Player.tryShoot (fireCooldown : ℝ) (w : World) (hit : Option String) :
    ShotResult :=
  if fireCooldown > 0 then ⟨fireCooldown, w, false⟩
  else
    match hit with
    | some m => ⟨fireRate, (InteractionSystem.handleHit w m bulletDamage none).1, true⟩
    | none => ⟨fireRate, w, true⟩

/-- The per-frame inputs of one update tick. -/
structure TickIn where
  i : InputMap
  camForward : Vec3
  camRight : Vec3
  currentVel : Vec3
  grounded : Bool
  delta : ℝ

/-- The fire cooldown after a sequence of update ticks. -/
noncomputable def Player.runTicks (c : PlayerConsts) (fireCooldown : ℝ)
    (ts : List TickIn) : ℝ :=
  ts.foldl
    (fun fc t => (Player.update c fc t.i t.camForward t.camRight t.currentVel t.grounded t.delta).1)
    fireCooldown

/-! ### Claim-side definitions (written from the specification wording) -/

/-- Damage category as the specification words it: the override category if
given, else the record's resource category, else Mob/Animal from the record's
kind, else Generic. -/
def specCategory (st : DamageableState) (oc : Option DamageCategory) : DamageCategory :=
  match oc with
  | some c => c
  | none =>
    match st.resourceType with
    | some rt => rt.toCategory
    | none =>
      match st.kind with
      | .mob => DamageCategory.mob
      | .animal => DamageCategory.animal
      | .resource => DamageCategory.generic

/-- Effective damage as the specification words it: baseDamage scaled by 0.7
plus the category bonus for Resource records, baseDamage plus the bonus
otherwise. -/
def specEffectiveDamage (econ : GameState) (baseDamage : ℚ)
    (st : DamageableState) (oc : Option DamageCategory) : ℚ :=
  if st.kind = DamageableKind.resource then
    baseDamage * (7 / 10) + econ.damageBonus (specCategory st oc)
  else baseDamage + econ.damageBonus (specCategory st oc)

def isEconDeposit : HitEvent → Bool
  | .depositEv _ _ => true
  | .skillEv _ => true
  | .disposeEv => false

/-- The ordering property claimed for the death side effects: every economy
deposit in the trace happens strictly before any dispose request. -/
def depositsPrecedeDispose (tr : List HitEvent) : Prop :=
  ∀ i j (hi : i < tr.length) (hj : j < tr.length),
    tr.get ⟨i, hi⟩ = HitEvent.disposeEv → isEconDeposit (tr.get ⟨j, hj⟩) = true → j < i

/-! ### Concrete instances used by witnesses and counterexamples -/

/-- Economy with one Wood, one registered subscriber. -/
def witState : GameState :=
  { inventory := fun n => if n = "Wood" then 1 else 0
    skillPoints := 0
    damageBonus := fun _ => 0
    listeners := [0]
    invocations := [] }

/-- Economy with three Wood and two Stone, one registered subscriber. -/
def richState : GameState :=
  { inventory := fun n => if n = "Wood" then 3 else if n = "Stone" then 2 else 0
    skillPoints := 0
    damageBonus := fun _ => 0
    listeners := [0]
    invocations := [] }

/-- Resource-kind record with 60 hit points, the spec's softening example. -/
def treeRecord : DamageableState :=
  { hp := 60
    kind := DamageableKind.resource
    resourceType := some ResourceType.wood
    reward := some [("Wood", 3)]
    skillPoints := none }

/-- Mob record worth a reward of two Hide and one Meat plus two skill
points. -/
def bruteRecord : DamageableState :=
  { hp := 80
    kind := DamageableKind.mob
    resourceType := none
    reward := some [("Hide", 2), ("Meat", 1)]
    skillPoints := some 2 }

/-- World with the tree registered under handle t and the brute under b. -/
def witWorld : World :=
  InteractionSystem.register
    (InteractionSystem.register emptyWorld "t" treeRecord) "b" bruteRecord

/-- Mob record whose registration breaks the positive-hit-points claim. -/
def deadOnArrival : DamageableState :=
  { hp := 0
    kind := DamageableKind.mob
    resourceType := none
    reward := none
    skillPoints := none }

/-- Tick oracle whose collision-aware move always lands far outside the
bounds, and whose random draws are fixed. -/
def wildOracle : TickOracle :=
  { disposed := fun _ => false
    newDir := fun _ => ⟨1, 0, 0⟩
    newTimer := fun _ => 2
    moveResult := fun _ _ _ => ⟨100, 5, -70⟩ }

def deerMob : MobState :=
  { handle := "deer"
    pos := ⟨0, 2, 0⟩
    dir := ⟨1, 0, 0⟩
    speed := 5 / 2
    changeTimer := 2
    kind := CreatureKind.animal }

/-- Both forward and backward keys held: directional input is held, yet the
accumulated movement direction is zero. -/
def inputWS : InputMap :=
  { w := true, s := true, a := false, d := false, shift := false, space := false }

def inputIdle : InputMap :=
  { w := false, s := false, a := false, d := false, shift := false, space := false }

noncomputable def camF0 : Vec3 := ⟨0, 0, 1⟩

noncomputable def camR0 : Vec3 := ⟨1, 0, 0⟩

noncomputable def vel0 : Vec3 := ⟨5, 0, 0⟩

/-- One idle tick of a tenth of a second. -/
noncomputable def idleTick : TickIn :=
  { i := inputIdle
    camForward := camF0
    camRight := camR0
    currentVel := vel0
    grounded := false
    delta := 1 / 10 }

/-! ### Economy lemmas -/

theorem notify_getResource (s : GameState) (n : String) :
    s.notify.getResource n = s.getResource n := rfl

theorem notify_inventory (s : GameState) :
    s.notify.inventory = s.inventory := rfl

theorem notify_invocations (s : GameState) :
    s.notify.invocations = s.invocations ++ s.listeners := rfl

theorem spendList_cons (s : GameState) (p : String × ℚ) (rest : List (String × ℚ)) :
    spendList s (p :: rest)
      = spendList { s with inventory := mapSet s.inventory p.1 (s.getResource p.1 - p.2) } rest := rfl

theorem spendList_listeners (s : GameState) (cost : List (String × ℚ)) :
    (spendList s cost).listeners = s.listeners := by
  induction cost generalizing s with
  | nil => rfl
  | cons p rest ih => rw [spendList_cons]; exact ih _

theorem spendList_invocations (s : GameState) (cost : List (String × ℚ)) :
    (spendList s cost).invocations = s.invocations := by
  induction cost generalizing s with
  | nil => rfl
  | cons p rest ih => rw [spendList_cons]; exact ih _

theorem spendList_not_mem (s : GameState) (cost : List (String × ℚ)) (item : String)
    (hmem : item ∉ cost.map Prod.fst) :
    (spendList s cost).getResource item = s.getResource item := by
  induction cost generalizing s with
  | nil => rfl
  | cons p rest ih =>
    rw [spendList_cons]
    have hne : item ≠ p.1 := by
      intro he; exact hmem (by simp [he])
    have hrest : item ∉ rest.map Prod.fst := by
      intro hr; exact hmem (by simp [hr])
    rw [ih _ hrest]
    simp [GameState.getResource, mapSet, hne]

theorem spendList_mem (s : GameState) (cost : List (String × ℚ))
    (hnodup : (cost.map Prod.fst).Nodup) :
    ∀ p ∈ cost, (spendList s cost).getResource p.1 = s.getResource p.1 - p.2 := by
  induction cost generalizing s with
  | nil => intro p hp; cases hp
  | cons q rest ih =>
    intro p hp
    have hq : q.1 ∉ rest.map Prod.fst := by
      have := hnodup; simp only [List.map_cons, List.nodup_cons] at this
      exact this.1
    have hrestnodup : (rest.map Prod.fst).Nodup := by
      have := hnodup; simp only [List.map_cons, List.nodup_cons] at this
      exact this.2
    rcases List.mem_cons.mp hp with heq | hmem
    · subst heq
      rw [spendList_cons, spendList_not_mem _ _ _ hq]
      simp [GameState.getResource, mapSet]
    · have hne : p.1 ≠ q.1 := by
        intro he
        exact hq (he ▸ List.mem_map_of_mem Prod.fst hmem)
      rw [spendList_cons, ih _ hrestnodup p hmem]
      simp [GameState.getResource, mapSet, hne]

theorem spendResources_fail (s : GameState) (cost : List (String × ℚ))
    (h : ∃ p ∈ cost, s.getResource p.1 < p.2) :
    s.spendResources cost = (false, s) := by
  unfold GameState.spendResources
  rw [if_pos]
  rcases h with ⟨p, hp, hlt⟩
  exact List.any_eq_true.mpr ⟨p, hp, decide_eq_true hlt⟩

theorem spendResources_ok (s : GameState) (cost : List (String × ℚ))
    (h : ∀ p ∈ cost, p.2 ≤ s.getResource p.1) :
    s.spendResources cost = (true, (spendList s cost).notify) := by
  unfold GameState.spendResources
  rw [if_neg]
  intro hany
  rcases List.any_eq_true.mp hany with ⟨p, hp, hlt⟩
  exact absurd (h p hp) (not_le.mpr (of_decide_eq_true hlt))

/-- C1: for every cost table with at least one undersupplied item,
spendResources returns failure and leaves the economy (inventory, invocation
log, everything) unchanged; for every fully supplied cost table it returns
success, decrements every listed item by its needed amount, leaves unlisted
items unchanged, and then invokes every subscriber once. -/
theorem spend_resources_atomic (s : GameState) (cost : List (String × ℚ))
    (hnodup : (cost.map Prod.fst).Nodup) :
    ((∃ p ∈ cost, s.getResource p.1 < p.2) →
      s.spendResources cost = (false, s)) ∧
    ((∀ p ∈ cost, p.2 ≤ s.getResource p.1) →
      (s.spendResources cost).1 = true ∧
      (∀ p ∈ cost, (s.spendResources cost).2.getResource p.1 = s.getResource p.1 - p.2) ∧
      (∀ item, item ∉ cost.map Prod.fst →
        (s.spendResources cost).2.getResource item = s.getResource item) ∧
      (s.spendResources cost).2.invocations = s.invocations ++ s.listeners) := by
  constructor
  · exact spendResources_fail s cost
  · intro hall
    rw [spendResources_ok s cost hall]
    refine ⟨rfl, ?_, ?_, ?_⟩
    · intro p hp
      rw [notify_getResource]
      exact spendList_mem s cost hnodup p hp
    · intro item hitem
      rw [notify_getResource]
      exact spendList_not_mem s cost item hitem
    · rw [notify_invocations, spendList_invocations, spendList_listeners]

/-- Witness for C1 at the spec's own example: inventory one Wood, cost two
Wood and one Stone is undersupplied, so the call fails and returns the state
unchanged. -/
theorem spend_resources_atomic_witness :
    (([("Wood", (2 : ℚ)), ("Stone", 1)].map Prod.fst).Nodup) ∧
    ((∃ p ∈ [("Wood", (2 : ℚ)), ("Stone", 1)], witState.getResource p.1 < p.2) →
      witState.spendResources [("Wood", 2), ("Stone", 1)] = (false, witState)) :=
  ⟨by decide, (spend_resources_atomic witState [("Wood", 2), ("Stone", 1)] (by decide)).1⟩

/-- C10: spendResources with an empty cost table succeeds, mutates no
inventory entry, and still invokes every registered subscriber. -/
theorem spend_resources_empty (s : GameState) :
    (s.spendResources []).1 = true ∧
    (s.spendResources []).2.inventory = s.inventory ∧
    (s.spendResources []).2.invocations = s.invocations ++ s.listeners :=
  ⟨rfl, rfl, rfl⟩

/-! ### Registry lemmas -/

theorem mapSet_same {α κ : Type} [DecidableEq κ] (f : κ → α) (k : κ) (v : α) :
    mapSet f k v k = v := by simp [mapSet]

theorem mapSet_other {α κ : Type} [DecidableEq κ] (f : κ → α) (k : κ) (v : α)
    (x : κ) (hx : x ≠ k) : mapSet f k v x = f x := by simp [mapSet, hx]

theorem handleHit_stale (w : World) (h : String) (b : ℚ) (oc : Option DamageCategory)
    (hst : w.targets h = none) :
    InteractionSystem.handleHit w h b oc = (w, []) := by
  unfold InteractionSystem.handleHit
  rw [hst]

theorem handleHit_survive (w : World) (h : String) (st : DamageableState)
    (b : ℚ) (oc : Option DamageCategory) (hreg : w.targets h = some st)
    (hpos : 0 < st.hp - InteractionSystem.getDamage w.econ b st oc) :
    InteractionSystem.handleHit w h b oc
      = ({ w with
            targets := mapSet w.targets h
              (some { st with hp := st.hp - InteractionSystem.getDamage w.econ b st oc }) },
         []) := by
  unfold InteractionSystem.handleHit
  rw [hreg]
  simp only
  rw [if_neg (not_le.mpr hpos)]

theorem handleHit_death (w : World) (h : String) (st : DamageableState)
    (b : ℚ) (oc : Option DamageCategory) (hreg : w.targets h = some st)
    (hle : st.hp - InteractionSystem.getDamage w.econ b st oc ≤ 0) :
    InteractionSystem.handleHit w h b oc
      = ({ econ := skillStateOf (depositState w.econ (st.reward.getD [])) st.skillPoints
           targets := mapSet w.targets h none },
         HitEvent.disposeEv :: (depositTrace (st.reward.getD []) ++ skillTraceOf st.skillPoints)) := by
  unfold InteractionSystem.handleHit
  rw [hreg]
  simp only
  rw [if_pos hle]

theorem addResource_getResource_self (g : GameState) (n : String) (a : ℚ) :
    (g.addResource n a).getResource n = g.getResource n + a := by
  simp [GameState.addResource, GameState.getResource, GameState.notify, mapSet]

theorem addResource_getResource_other (g : GameState) (n : String) (a : ℚ)
    (m : String) (hm : m ≠ n) :
    (g.addResource n a).getResource m = g.getResource m := by
  simp [GameState.addResource, GameState.getResource, GameState.notify, mapSet, hm]

theorem addResource_skillPoints (g : GameState) (n : String) (a : ℚ) :
    (g.addResource n a).skillPoints = g.skillPoints := rfl

theorem depositState_cons (g : GameState) (p : String × ℚ) (r : List (String × ℚ)) :
    depositState g (p :: r) = depositState (g.addResource p.1 p.2) r := rfl

theorem depositState_not_mem (g : GameState) (r : List (String × ℚ)) (item : String)
    (hmem : item ∉ r.map Prod.fst) :
    (depositState g r).getResource item = g.getResource item := by
  induction r generalizing g with
  | nil => rfl
  | cons p rest ih =>
    have hne : item ≠ p.1 := by
      intro he; exact hmem (by simp [he])
    have hrest : item ∉ rest.map Prod.fst := by
      intro hr; exact hmem (by simp [hr])
    rw [depositState_cons, ih _ hrest, addResource_getResource_other _ _ _ _ hne]

theorem depositState_mem (g : GameState) (r : List (String × ℚ))
    (hnodup : (r.map Prod.fst).Nodup) :
    ∀ p ∈ r, (depositState g r).getResource p.1 = g.getResource p.1 + p.2 := by
  induction r generalizing g with
  | nil => intro p hp; cases hp
  | cons q rest ih =>
    intro p hp
    have hq : q.1 ∉ rest.map Prod.fst := by
      have := hnodup; simp only [List.map_cons, List.nodup_cons] at this
      exact this.1
    have hrestnodup : (rest.map Prod.fst).Nodup := by
      have := hnodup; simp only [List.map_cons, List.nodup_cons] at this
      exact this.2
    rcases List.mem_cons.mp hp with heq | hmem
    · subst heq
      rw [depositState_cons, depositState_not_mem _ _ _ hq,
        addResource_getResource_self]
    · have hne : p.1 ≠ q.1 := by
        intro he
        exact hq (he ▸ List.mem_map_of_mem Prod.fst hmem)
      rw [depositState_cons, ih _ hrestnodup p hmem,
        addResource_getResource_other _ _ _ _ hne]

theorem depositState_skillPoints (g : GameState) (r : List (String × ℚ)) :
    (depositState g r).skillPoints = g.skillPoints := by
  induction r generalizing g with
  | nil => rfl
  | cons p rest ih => rw [depositState_cons, ih]; rfl

theorem skillStateOf_getResource (g : GameState) (sp : Option ℚ) (n : String) :
    (skillStateOf g sp).getResource n = g.getResource n := by
  cases sp with
  | none => rfl
  | some v =>
    by_cases hv : v = 0 <;> simp [skillStateOf, hv, GameState.addSkillPoints,
      GameState.notify, GameState.getResource]

theorem skillStateOf_skillPoints (g : GameState) (sp : Option ℚ) :
    (skillStateOf g sp).skillPoints = g.skillPoints + sp.getD 0 := by
  cases sp with
  | none => simp [skillStateOf]
  | some v =>
    by_cases hv : v = 0 <;>
      simp [skillStateOf, hv, GameState.addSkillPoints, GameState.notify]

/-- C2: for a registered handle the damage category and effective damage are
exactly as the spec words them (specEffectiveDamage), and that amount is what
gets subtracted from the record's hit points: the record survives with exactly
that much less hp, or dies and is removed when the subtraction reaches
zero. -/
theorem apply_damage_formula (w : World) (h : String) (st : DamageableState)
    (base : ℚ) (oc : Option DamageCategory) (hreg : w.targets h = some st) :
    InteractionSystem.getDamage w.econ base st oc = specEffectiveDamage w.econ base st oc ∧
    (0 < st.hp - specEffectiveDamage w.econ base st oc →
      (InteractionSystem.handleHit w h base oc).1.targets h
        = some { st with hp := st.hp - specEffectiveDamage w.econ base st oc }) ∧
    (st.hp - specEffectiveDamage w.econ base st oc ≤ 0 →
      (InteractionSystem.handleHit w h base oc).1.targets h = none) := by
  have hdef : InteractionSystem.getDamage w.econ base st oc
      = specEffectiveDamage w.econ base st oc := rfl
  refine ⟨hdef, ?_, ?_⟩
  · intro hpos
    rw [handleHit_survive w h st base oc hreg (hdef ▸ hpos)]
    simp only [hdef]
    exact mapSet_same _ _ _
  · intro hle
    rw [handleHit_death w h st base oc hreg (hdef ▸ hle)]
    exact mapSet_same _ _ _

/-- Witness for C2 at the spec's softening example: the tree is a Resource
with 60 hp; a 25 base-damage hit with zero bonus deals 25 times 0.7 equals
17.5, leaving the record at 42.5 hp. -/
theorem apply_damage_formula_witness :
    witWorld.targets "t" = some treeRecord ∧
    specEffectiveDamage witWorld.econ 25 treeRecord none = 35 / 2 ∧
    (0 < treeRecord.hp - specEffectiveDamage witWorld.econ 25 treeRecord none →
      (InteractionSystem.handleHit witWorld "t" 25 none).1.targets "t"
        = some { treeRecord with
                  hp := treeRecord.hp - specEffectiveDamage witWorld.econ 25 treeRecord none }) :=
  ⟨by decide,
    by
      simp only [specEffectiveDamage, specCategory, witWorld, InteractionSystem.register,
        emptyWorld, emptyState, treeRecord]
      norm_num,
    (apply_damage_formula witWorld "t" treeRecord 25 none (by decide)).2.1⟩

/-- C9: a hit whose effective damage is below the record's hit points changes
only that record's hp: the economy (inventory, skill points, bonuses,
subscriber log) is untouched, no side-effect event is issued, and every other
handle keeps its record. -/
theorem survive_hit_frame (w : World) (h : String) (st : DamageableState)
    (base : ℚ) (oc : Option DamageCategory) (hreg : w.targets h = some st)
    (hlt : InteractionSystem.getDamage w.econ base st oc < st.hp) :
    (InteractionSystem.handleHit w h base oc).1.econ = w.econ ∧
    (InteractionSystem.handleHit w h base oc).2 = [] ∧
    (InteractionSystem.handleHit w h base oc).1.targets h
      = some { st with hp := st.hp - InteractionSystem.getDamage w.econ base st oc } ∧
    (∀ h2, h2 ≠ h → (InteractionSystem.handleHit w h base oc).1.targets h2 = w.targets h2) := by
  rw [handleHit_survive w h st base oc hreg (sub_pos.mpr hlt)]
  refine ⟨rfl, rfl, mapSet_same _ _ _, ?_⟩
  intro h2 hne
  exact mapSet_other _ _ _ _ hne

/-- Witness for C9: the brute has 80 hp and takes a 24 damage bullet, so only
its record changes and the economy is untouched. -/
theorem bruteShotSurvives :
    InteractionSystem.getDamage witWorld.econ 24 bruteRecord none < bruteRecord.hp := by
  simp only [InteractionSystem.getDamage, GameState.getDamageBonus, witWorld,
    InteractionSystem.register, emptyWorld, emptyState, bruteRecord]
  rw [if_neg (by decide)]
  norm_num

theorem survive_hit_frame_witness :
    witWorld.targets "b" = some bruteRecord ∧
    InteractionSystem.getDamage witWorld.econ 24 bruteRecord none < bruteRecord.hp ∧
    (InteractionSystem.handleHit witWorld "b" 24 none).1.econ = witWorld.econ ∧
    (InteractionSystem.handleHit witWorld "b" 24 none).2 = [] :=
  ⟨by decide, bruteShotSurvives,
    (survive_hit_frame witWorld "b" bruteRecord 24 none (by decide) bruteShotSurvives).1,
    (survive_hit_frame witWorld "b" bruteRecord 24 none (by decide) bruteShotSurvives).2.1⟩

/-- C3: when a hit drives a record to zero or below, the record is removed,
every reward entry is deposited into inventory exactly once, the skill grant
is added exactly once, and any further hit on the same handle is a complete
no-op with no further side effects. -/
theorem death_rewards_once (w : World) (h : String) (st : DamageableState)
    (base : ℚ) (oc : Option DamageCategory) (hreg : w.targets h = some st)
    (hdeath : st.hp - InteractionSystem.getDamage w.econ base st oc ≤ 0)
    (hnodup : ((st.reward.getD []).map Prod.fst).Nodup) :
    (InteractionSystem.handleHit w h base oc).1.targets h = none ∧
    (∀ p ∈ st.reward.getD [],
      (InteractionSystem.handleHit w h base oc).1.econ.getResource p.1
        = w.econ.getResource p.1 + p.2) ∧
    (InteractionSystem.handleHit w h base oc).1.econ.skillPoints
      = w.econ.skillPoints + st.skillPoints.getD 0 ∧
    (∀ b2 oc2,
      InteractionSystem.handleHit (InteractionSystem.handleHit w h base oc).1 h b2 oc2
        = ((InteractionSystem.handleHit w h base oc).1, [])) := by
  rw [handleHit_death w h st base oc hreg hdeath]
  refine ⟨mapSet_same _ _ _, ?_, ?_, ?_⟩
  · intro p hp
    rw [skillStateOf_getResource]
    exact depositState_mem _ _ hnodup p hp
  · rw [skillStateOf_skillPoints, depositState_skillPoints]
  · intro b2 oc2
    exact handleHit_stale _ _ _ _ (mapSet_same _ _ _)

theorem bruteDeathHp :
    bruteRecord.hp - InteractionSystem.getDamage witWorld.econ 100 bruteRecord none ≤ 0 := by
  simp only [InteractionSystem.getDamage, GameState.getDamageBonus, witWorld,
    InteractionSystem.register, emptyWorld, emptyState, bruteRecord]
  rw [if_neg (by decide)]
  norm_num

/-- Witness for C3: a 100-damage hit kills the brute; both reward entries are
deposited once. -/
theorem death_rewards_once_witness :
    witWorld.targets "b" = some bruteRecord ∧
    bruteRecord.hp - InteractionSystem.getDamage witWorld.econ 100 bruteRecord none ≤ 0 ∧
    ((bruteRecord.reward.getD []).map Prod.fst).Nodup ∧
    (∀ p ∈ bruteRecord.reward.getD [],
      (InteractionSystem.handleHit witWorld "b" 100 none).1.econ.getResource p.1
        = witWorld.econ.getResource p.1 + p.2) :=
  ⟨by decide, bruteDeathHp, by decide,
    (death_rewards_once witWorld "b" bruteRecord 100 none (by decide) bruteDeathHp
      (by decide)).2.1⟩

/-- Counterexample to C4 as stated: killing the brute issues the dispose
request as the very first side effect and deposits the rewards after it, so
the deposits do not precede the death signal. -/
theorem deposits_precede_dispose_cex :
    (InteractionSystem.handleHit witWorld "b" 100 none).2
      = [HitEvent.disposeEv, HitEvent.depositEv "Hide" 2, HitEvent.depositEv "Meat" 1,
         HitEvent.skillEv 2] ∧
    ¬ depositsPrecedeDispose
        [HitEvent.disposeEv, HitEvent.depositEv "Hide" 2, HitEvent.depositEv "Meat" 1,
         HitEvent.skillEv 2] := by
  constructor
  · rw [handleHit_death witWorld "b" bruteRecord 100 none (by decide) bruteDeathHp]
    simp [bruteRecord, depositTrace, skillTraceOf]
  · intro hcl
    have h10 := hcl 0 1 (by decide) (by decide) rfl rfl
    exact absurd h10 (by decide)

/-- C4 (amended): in every death-handling execution the destruction request
for the visual object is the first side effect of the call, and the reward
deposits and skill grant follow it synchronously within the same call. -/
theorem dispose_first_then_deposits (w : World) (h : String) (st : DamageableState)
    (base : ℚ) (oc : Option DamageCategory) (hreg : w.targets h = some st)
    (hdeath : st.hp - InteractionSystem.getDamage w.econ base st oc ≤ 0) :
    ((InteractionSystem.handleHit w h base oc).2).head? = some HitEvent.disposeEv ∧
    (∀ p ∈ st.reward.getD [],
      HitEvent.depositEv p.1 p.2 ∈ ((InteractionSystem.handleHit w h base oc).2).tail) ∧
    (∀ v, st.skillPoints = some v → v ≠ 0 →
      HitEvent.skillEv v ∈ ((InteractionSystem.handleHit w h base oc).2).tail) := by
  rw [handleHit_death w h st base oc hreg hdeath]
  refine ⟨rfl, ?_, ?_⟩
  · intro p hp
    simp only [List.tail_cons]
    exact List.mem_append_left _ (List.mem_map_of_mem _ hp)
  · intro v hv hne
    simp only [List.tail_cons]
    refine List.mem_append_right _ ?_
    simp [skillTraceOf, hv, hne]

/-- Witness for the amended C4 on the brute kill. -/
theorem dispose_first_then_deposits_witness :
    witWorld.targets "b" = some bruteRecord ∧
    bruteRecord.hp - InteractionSystem.getDamage witWorld.econ 100 bruteRecord none ≤ 0 ∧
    ((InteractionSystem.handleHit witWorld "b" 100 none).2).head?
      = some HitEvent.disposeEv ∧
    (∀ p ∈ bruteRecord.reward.getD [],
      HitEvent.depositEv p.1 p.2 ∈ ((InteractionSystem.handleHit witWorld "b" 100 none).2).tail) :=
  ⟨by decide, bruteDeathHp,
    (dispose_first_then_deposits witWorld "b" bruteRecord 100 none (by decide) bruteDeathHp).1,
    (dispose_first_then_deposits witWorld "b" bruteRecord 100 none (by decide) bruteDeathHp).2.1⟩

/-- Counterexample to C5 as stated: register performs no hit-point check, so a
single register operation with a zero-hp config yields a registry state whose
handle has non-positive hit points. -/
theorem registry_nonpositive_hp_cex :
    (runOps emptyWorld [RegistryOp.reg "m" deadOnArrival]).targets "m"
      = some deadOnArrival ∧
    ¬ (0 < deadOnArrival.hp) :=
  ⟨by decide, by decide⟩

theorem handleHit_preserves_positive (w : World) (h : String) (b : ℚ)
    (oc : Option DamageCategory)
    (hw : ∀ h2 st, w.targets h2 = some st → 0 < st.hp) :
    ∀ h2 st, (InteractionSystem.handleHit w h b oc).1.targets h2 = some st → 0 < st.hp := by
  cases hl : w.targets h with
  | none =>
    rw [handleHit_stale w h b oc hl]
    exact hw
  | some st0 =>
    rcases le_or_lt (st0.hp - InteractionSystem.getDamage w.econ b st0 oc) 0 with hle | hpos
    · rw [handleHit_death w h st0 b oc hl hle]
      intro h2 st hst
      by_cases he : h2 = h
      · subst he
        have hst3 : mapSet w.targets h2 none h2 = some st := hst
        rw [mapSet_same] at hst3
        exact Option.noConfusion hst3
      · have hst3 : mapSet w.targets h none h2 = some st := hst
        rw [mapSet_other _ _ _ _ he] at hst3
        exact hw h2 st hst3
    · rw [handleHit_survive w h st0 b oc hl hpos]
      intro h2 st hst
      by_cases he : h2 = h
      · subst he
        have hst3 :
            mapSet w.targets h2
              (some { st0 with hp := st0.hp - InteractionSystem.getDamage w.econ b st0 oc }) h2
              = some st := hst
        rw [mapSet_same] at hst3
        cases Option.some.inj hst3
        exact hpos
      · have hst3 :
            mapSet w.targets h
              (some { st0 with hp := st0.hp - InteractionSystem.getDamage w.econ b st0 oc }) h2
              = some st := hst
        rw [mapSet_other _ _ _ _ he] at hst3
        exact hw h2 st hst3

theorem runOps_positive (w : World) (ops : List RegistryOp)
    (hw : ∀ h st, w.targets h = some st → 0 < st.hp)
    (hops : ∀ h cfg, RegistryOp.reg h cfg ∈ ops → 0 < cfg.hp) :
    ∀ h st, (runOps w ops).targets h = some st → 0 < st.hp := by
  induction ops generalizing w with
  | nil => exact hw
  | cons op rest ih =>
    have hrest : ∀ h cfg, RegistryOp.reg h cfg ∈ rest → 0 < cfg.hp := by
      intro h cfg hm
      exact hops h cfg (List.mem_cons_of_mem _ hm)
    have hstep : ∀ h st, (applyOp w op).targets h = some st → 0 < st.hp := by
      cases op with
      | reg hr cfg =>
        intro h st hst
        by_cases he : h = hr
        · subst he
          have : mapSet w.targets h (some cfg) h = some st := hst
          rw [mapSet_same] at this
          cases Option.some.inj this
          exact hops h cfg (List.mem_cons_self _ _)
        · have : mapSet w.targets hr (some cfg) h = some st := hst
          rw [mapSet_other _ _ _ _ he] at this
          exact hw h st this
      | hit hr b oc => exact handleHit_preserves_positive w hr b oc hw
      | unreg hr =>
        intro h st hst
        by_cases he : h = hr
        · subst he
          have : mapSet w.targets h none h = some st := hst
          rw [mapSet_same] at this
          exact Option.noConfusion this
        · have : mapSet w.targets hr none h = some st := hst
          rw [mapSet_other _ _ _ _ he] at this
          exact hw h st this
    exact ih (applyOp w op) hstep hrest

/-- C5 (amended): along every sequence of register, applyDamage and
unregister operations whose register configs carry positive hit points, every
handle present in the registry has positive hit points; and the moment a hit
drives a record to zero or below, the record is removed within that same
call. -/
theorem registry_hp_invariant (w : World) (ops : List RegistryOp)
    (hw : ∀ h st, w.targets h = some st → 0 < st.hp)
    (hops : ∀ h cfg, RegistryOp.reg h cfg ∈ ops → 0 < cfg.hp) :
    (∀ h st, (runOps w ops).targets h = some st → 0 < st.hp) ∧
    (∀ (w2 : World) (h : String) (st : DamageableState) (base : ℚ)
        (oc : Option DamageCategory), w2.targets h = some st →
      st.hp - InteractionSystem.getDamage w2.econ base st oc ≤ 0 →
      (InteractionSystem.handleHit w2 h base oc).1.targets h = none) := by
  refine ⟨runOps_positive w ops hw hops, ?_⟩
  intro w2 h st base oc hreg hle
  rw [handleHit_death w2 h st base oc hreg hle]
  exact mapSet_same _ _ _

theorem emptyWorldPositive :
    ∀ h st, emptyWorld.targets h = some st → 0 < st.hp :=
  fun _ _ hst => Option.noConfusion hst

theorem bruteOpPositive :
    ∀ h cfg, RegistryOp.reg h cfg ∈ [RegistryOp.reg "b" bruteRecord] → 0 < cfg.hp := by
  intro h cfg hm
  rcases List.mem_cons.mp hm with he | hm2
  · injection he with h1 h2
    subst h2
    norm_num [bruteRecord]
  · cases hm2

/-- Witness for the amended C5: registering the brute from the empty world
keeps every registered record at positive hit points. -/
theorem registry_hp_invariant_witness :
    (∀ h st, emptyWorld.targets h = some st → 0 < st.hp) ∧
    (∀ h cfg, RegistryOp.reg h cfg ∈ [RegistryOp.reg "b" bruteRecord] → 0 < cfg.hp) ∧
    (∀ h st, (runOps emptyWorld [RegistryOp.reg "b" bruteRecord]).targets h = some st →
      0 < st.hp) :=
  ⟨emptyWorldPositive, bruteOpPositive,
    (registry_hp_invariant emptyWorld [RegistryOp.reg "b" bruteRecord]
      emptyWorldPositive bruteOpPositive).1⟩

/-! ### Creature bounds lemmas -/

theorem update_mem_bounds (halfSize : ℚ) (hH : 0 ≤ halfSize) (o : TickOracle)
    (delta : ℚ) (mobs : List MobState) :
    ∀ m ∈ MobManager.update halfSize o delta mobs,
      |m.pos.x| ≤ halfSize ∧ |m.pos.z| ≤ halfSize := by
  intro m hm
  unfold MobManager.update at hm
  rcases List.mem_map.mp hm with ⟨m0, hm0, hrfl⟩
  subst hrfl
  constructor
  · exact abs_le.mpr ⟨le_min (neg_le_self hH) (le_max_left _ _), min_le_left _ _⟩
  · exact abs_le.mpr ⟨le_min (neg_le_self hH) (le_max_left _ _), min_le_left _ _⟩

theorem runTicks_preserves_bounds (halfSize : ℚ) (hH : 0 ≤ halfSize)
    (ticks : List (TickOracle × ℚ)) (mobs : List MobState)
    (hm : ∀ m ∈ mobs, |m.pos.x| ≤ halfSize ∧ |m.pos.z| ≤ halfSize) :
    ∀ m ∈ MobManager.runTicks halfSize ticks mobs,
      |m.pos.x| ≤ halfSize ∧ |m.pos.z| ≤ halfSize := by
  induction ticks generalizing mobs with
  | nil => exact hm
  | cons t rest ih =>
    exact ih (MobManager.update halfSize t.1 t.2 mobs)
      (update_mem_bounds halfSize hH t.1 t.2 mobs)

/-- C6: after any nonempty sequence of behavior-controller ticks, whatever
positions the collision-aware moves produced, every surviving creature sits
inside the playable square: the absolute x and z coordinates stay within the
half extent. -/
theorem mob_bounds_containment (halfSize : ℚ) (ticks : List (TickOracle × ℚ))
    (mobs : List MobState) (hH : 0 ≤ halfSize) (hne : ticks ≠ []) :
    ∀ m ∈ MobManager.runTicks halfSize ticks mobs,
      |m.pos.x| ≤ halfSize ∧ |m.pos.z| ≤ halfSize := by
  cases ticks with
  | nil => exact absurd rfl hne
  | cons t rest =>
    exact runTicks_preserves_bounds halfSize hH rest
      (MobManager.update halfSize t.1 t.2 mobs)
      (update_mem_bounds halfSize hH t.1 t.2 mobs)

/-- Witness for C6: one tick whose physics move lands the deer far outside
the bounds still leaves it clamped inside the half extent 2. -/
theorem mob_bounds_containment_witness :
    (0 : ℚ) ≤ 2 ∧ ([((wildOracle, (1 : ℚ)))] ≠ []) ∧
    (∀ m ∈ MobManager.runTicks 2 [(wildOracle, 1)] [deerMob],
      |m.pos.x| ≤ 2 ∧ |m.pos.z| ≤ 2) :=
  ⟨by norm_num, by simp,
    mob_bounds_containment 2 [(wildOracle, 1)] [deerMob] (by norm_num) (by simp)⟩

/-! ### Fire cooldown lemmas -/

theorem update_cooldown (c : PlayerConsts) (fc : ℝ) (i : InputMap)
    (cf cr cv : Vec3) (g : Bool) (d : ℝ) :
    (Player.update c fc i cf cr cv g d).1 = max 0 (fc - d) := rfl

theorem max0_step (a d : ℝ) (hd : 0 ≤ d) : max 0 (max 0 a - d) = max 0 (a - d) := by
  rcases le_or_lt a 0 with ha | ha
  · rw [max_eq_left ha, max_eq_left (by linarith : 0 - d ≤ 0),
      max_eq_left (by linarith : a - d ≤ 0)]
  · rw [max_eq_right ha.le]

theorem runTicks_max0 (c : PlayerConsts) (a : ℝ) (ts : List TickIn)
    (hd : ∀ t ∈ ts, 0 ≤ t.delta) :
    Player.runTicks c (max 0 a) ts = max 0 (a - (ts.map TickIn.delta).sum) := by
  induction ts generalizing a with
  | nil => simp [Player.runTicks]
  | cons t rest ih =>
    have h0 : 0 ≤ t.delta := hd t (List.mem_cons_self _ _)
    have hrest : ∀ t2 ∈ rest, 0 ≤ t2.delta := fun t2 h2 => hd t2 (List.mem_cons_of_mem _ h2)
    have hstep : Player.runTicks c (max 0 a) (t :: rest)
        = Player.runTicks c (max 0 (max 0 a - t.delta)) rest := rfl
    rw [hstep, max0_step a t.delta h0, ih _ hrest]
    simp only [List.map_cons, List.sum_cons]
    congr 1
    ring

theorem fireRate_nonneg : (0 : ℝ) ≤ fireRate := by norm_num [fireRate]

theorem tryShoot_blocked (fc : ℝ) (w : World) (hit : Option String) (h : 0 < fc) :
    Player.tryShoot fc w hit = ⟨fc, w, false⟩ := by
  unfold Player.tryShoot
  rw [if_pos h]

theorem tryShoot_ready_cooldown (fc : ℝ) (w : World) (hit : Option String)
    (h : ¬ 0 < fc) : (Player.tryShoot fc w hit).fireCooldown = fireRate := by
  unfold Player.tryShoot
  rw [if_neg h]
  cases hit <;> rfl

theorem tryShoot_ready_raycast (fc : ℝ) (w : World) (hit : Option String)
    (h : ¬ 0 < fc) : (Player.tryShoot fc w hit).raycast = true := by
  unfold Player.tryShoot
  rw [if_neg h]
  cases hit <;> rfl

theorem tryShoot_ready_world (fc : ℝ) (w : World) (m : String) (h : ¬ 0 < fc) :
    (Player.tryShoot fc w (some m)).world
      = (InteractionSystem.handleHit w m bulletDamage none).1 := by
  unfold Player.tryShoot
  rw [if_neg h]

/-- Counterexample to C7 as stated: a tick never drives the cooldown
negative. With the cooldown already at zero, a one second tick leaves it at
zero, which differs from a decrease by deltaSeconds. -/
theorem cooldown_clamped_cex :
    (Player.update defaultPlayerConsts 0 inputIdle camF0 camR0 vel0 false 1).1 = 0 ∧
    (0 : ℝ) - 1 ≠ 0 := by
  constructor
  · rw [update_cooldown]
    norm_num
  · norm_num

/-- C7 (amended): a primary action with positive remaining cooldown is
ignored; otherwise the cooldown resets to the fire-rate interval, one raycast
is performed and a hit target takes the bullet damage; each tick lowers the
cooldown by deltaSeconds clamped below at zero; hence from a ready state two
primary actions whose separating ticks total less than the interval perform
exactly one raycast, and two raycasts when they total at least the
interval. -/
theorem cooldown_gating (c : PlayerConsts) (w : World) (hit1 hit2 : Option String)
    (ts : List TickIn) (hd : ∀ t ∈ ts, 0 ≤ t.delta) :
    (∀ (fc : ℝ) (w0 : World) (hit : Option String), 0 < fc →
      Player.tryShoot fc w0 hit = ⟨fc, w0, false⟩) ∧
    (∀ (fc : ℝ) (w0 : World) (hit : Option String), ¬ 0 < fc →
      (Player.tryShoot fc w0 hit).fireCooldown = fireRate ∧
      (Player.tryShoot fc w0 hit).raycast = true ∧
      (∀ m, hit = some m →
        (Player.tryShoot fc w0 hit).world
          = (InteractionSystem.handleHit w0 m bulletDamage none).1)) ∧
    (∀ (fc : ℝ) (i : InputMap) (cf cr cv : Vec3) (g : Bool) (d : ℝ),
      (Player.update c fc i cf cr cv g d).1 = max 0 (fc - d)) ∧
    ((Player.tryShoot 0 w hit1).raycast = true ∧
     ((ts.map TickIn.delta).sum < fireRate →
       (Player.tryShoot (Player.runTicks c (Player.tryShoot 0 w hit1).fireCooldown ts)
          (Player.tryShoot 0 w hit1).world hit2).raycast = false) ∧
     (fireRate ≤ (ts.map TickIn.delta).sum →
       (Player.tryShoot (Player.runTicks c (Player.tryShoot 0 w hit1).fireCooldown ts)
          (Player.tryShoot 0 w hit1).world hit2).raycast = true)) := by
  have hnot : ¬ (0 : ℝ) < 0 := lt_irrefl 0
  refine ⟨tryShoot_blocked, ?_, ?_, ?_, ?_, ?_⟩
  · intro fc w0 hit h
    refine ⟨tryShoot_ready_cooldown fc w0 hit h, tryShoot_ready_raycast fc w0 hit h, ?_⟩
    intro m hm
    subst hm
    exact tryShoot_ready_world fc w0 m h
  · intro fc i cf cr cv g d
    exact update_cooldown c fc i cf cr cv g d
  · exact tryShoot_ready_raycast 0 w hit1 hnot
  · intro hlt
    rw [tryShoot_ready_cooldown 0 w hit1 hnot]
    have hrw : Player.runTicks c fireRate ts
        = max 0 (fireRate - (ts.map TickIn.delta).sum) := by
      have h1 := runTicks_max0 c fireRate ts hd
      rw [max_eq_right fireRate_nonneg] at h1
      exact h1
    rw [hrw]
    have hpos : 0 < max 0 (fireRate - (ts.map TickIn.delta).sum) := by
      rw [max_eq_right (by linarith : (0:ℝ) ≤ fireRate - (ts.map TickIn.delta).sum)]
      linarith
    rw [tryShoot_blocked _ _ _ hpos]
  · intro hge
    rw [tryShoot_ready_cooldown 0 w hit1 hnot]
    have hrw : Player.runTicks c fireRate ts
        = max 0 (fireRate - (ts.map TickIn.delta).sum) := by
      have h1 := runTicks_max0 c fireRate ts hd
      rw [max_eq_right fireRate_nonneg] at h1
      exact h1
    rw [hrw]
    have hz : max 0 (fireRate - (ts.map TickIn.delta).sum) = 0 :=
      max_eq_left (by linarith)
    rw [hz]
    exact tryShoot_ready_raycast 0 _ hit2 hnot

theorem idleTickNonneg : ∀ t ∈ [idleTick], (0 : ℝ) ≤ t.delta := by
  intro t ht
  rcases List.mem_cons.mp ht with he | hm
  · subst he
    norm_num [idleTick]
  · cases hm

/-- Witness for the amended C7: from a ready state, one idle tick of a tenth
of a second is below the 0.18 second interval, so the second primary action
performs no raycast. -/
theorem cooldown_gating_witness :
    (∀ t ∈ [idleTick], (0 : ℝ) ≤ t.delta) ∧
    (Player.tryShoot 0 emptyWorld none).raycast = true ∧
    (([idleTick].map TickIn.delta).sum < fireRate →
      (Player.tryShoot
        (Player.runTicks defaultPlayerConsts
          (Player.tryShoot 0 emptyWorld none).fireCooldown [idleTick])
        (Player.tryShoot 0 emptyWorld none).world none).raycast = false) :=
  ⟨idleTickNonneg,
    (cooldown_gating defaultPlayerConsts emptyWorld none none [idleTick]
      idleTickNonneg).2.2.2.1,
    (cooldown_gating defaultPlayerConsts emptyWorld none none [idleTick]
      idleTickNonneg).2.2.2.2.1⟩

/-! ### Vector lemmas for the movement blend -/

theorem lengthSquared_eq_zero (v : Vec3) : v.lengthSquared = 0 ↔ v = Vec3.zero := by
  constructor
  · intro h
    have h0 : v.x * v.x + v.y * v.y + v.z * v.z = 0 := h
    have hx : v.x * v.x = 0 ∧ v.y * v.y = 0 ∧ v.z * v.z = 0 := by
      constructor
      · nlinarith [mul_self_nonneg v.x, mul_self_nonneg v.y, mul_self_nonneg v.z]
      constructor
      · nlinarith [mul_self_nonneg v.x, mul_self_nonneg v.y, mul_self_nonneg v.z]
      · nlinarith [mul_self_nonneg v.x, mul_self_nonneg v.y, mul_self_nonneg v.z]
    cases v with
    | mk x y z =>
      have h1 : x = 0 := mul_self_eq_zero.mp hx.1
      have h2 : y = 0 := mul_self_eq_zero.mp hx.2.1
      have h3 : z = 0 := mul_self_eq_zero.mp hx.2.2
      subst h1; subst h2; subst h3
      rfl
  · intro h
    subst h
    show (0 : ℝ) * 0 + 0 * 0 + 0 * 0 = 0
    norm_num

theorem lengthSquared_nonneg (v : Vec3) : 0 ≤ v.lengthSquared :=
  add_nonneg (add_nonneg (mul_self_nonneg v.x) (mul_self_nonneg v.y)) (mul_self_nonneg v.z)

theorem normalizeV_zero : Vec3.normalizeV Vec3.zero = Vec3.zero := by
  unfold Vec3.normalizeV
  rw [if_pos]
  show Real.sqrt (Vec3.lengthSquared Vec3.zero) = 0
  rw [(lengthSquared_eq_zero Vec3.zero).mpr rfl, Real.sqrt_zero]

theorem normalizeV_ls_zero_iff (v : Vec3) :
    (Vec3.normalizeV v).lengthSquared = 0 ↔ v = Vec3.zero := by
  constructor
  · intro h
    by_contra hv
    have hls0 : v.lengthSquared ≠ 0 := fun he => hv ((lengthSquared_eq_zero v).mp he)
    have hlen : 0 < v.length :=
      Real.sqrt_pos.mpr (lt_of_le_of_ne (lengthSquared_nonneg v) (Ne.symm hls0))
    have hne : v.length ≠ 0 := ne_of_gt hlen
    have hnv : Vec3.normalizeV v = v.scale (1 / v.length) := by
      unfold Vec3.normalizeV
      rw [if_neg hne]
    rw [hnv] at h
    have hcalc : (v.scale (1 / v.length)).lengthSquared
        = v.lengthSquared * ((1 / v.length) * (1 / v.length)) := by
      unfold Vec3.lengthSquared Vec3.scale
      ring
    rw [hcalc, one_div, ← mul_inv] at h
    have hll : v.length * v.length = v.lengthSquared := Real.mul_self_sqrt (lengthSquared_nonneg v)
    rw [hll, mul_inv_cancel₀ hls0] at h
    exact one_ne_zero h
  · intro h
    subst h
    rw [normalizeV_zero]
    exact (lengthSquared_eq_zero Vec3.zero).mpr rfl

theorem update_x_eq (c : PlayerConsts) (fc : ℝ) (i : InputMap) (cf cr cv : Vec3)
    (g : Bool) (d : ℝ) :
    (Player.update c fc i cf cr cv g d).2.x
      = if (moveDirOf i cf cr).lengthSquared = 0
        then (Vec3.lerpV cv (targetVelocity c i cf cr cv) (min 1 (c.acceleration * d))).x
               * max 0 (1 - c.damping * d)
        else (Vec3.lerpV cv (targetVelocity c i cf cr cv) (min 1 (c.acceleration * d))).x := by
  unfold Player.update
  dsimp only
  split <;> split <;> split <;> split <;> rfl

theorem update_z_eq (c : PlayerConsts) (fc : ℝ) (i : InputMap) (cf cr cv : Vec3)
    (g : Bool) (d : ℝ) :
    (Player.update c fc i cf cr cv g d).2.z
      = if (moveDirOf i cf cr).lengthSquared = 0
        then (Vec3.lerpV cv (targetVelocity c i cf cr cv) (min 1 (c.acceleration * d))).z
               * max 0 (1 - c.damping * d)
        else (Vec3.lerpV cv (targetVelocity c i cf cr cv) (min 1 (c.acceleration * d))).z := by
  unfold Player.update
  dsimp only
  split <;> split <;> split <;> split <;> rfl

/-- C8 (amended): each tick the new horizontal velocity is the linear blend of
the current velocity toward the target velocity with factor
min(1, acceleration times deltaSeconds); and exactly when the accumulated
movement direction is the zero vector (no directional key held, or held keys
cancelling), the horizontal components are additionally multiplied by
max(0, 1 minus damping times deltaSeconds). -/
theorem velocity_blend_damping (c : PlayerConsts) (fc : ℝ) (i : InputMap)
    (cf cr cv : Vec3) (g : Bool) (d : ℝ) :
    (moveDirRaw i (flattenNormalize cf) (flattenNormalize cr) = Vec3.zero →
      (Player.update c fc i cf cr cv g d).2.x
        = (cv.x + ((targetVelocity c i cf cr cv).x - cv.x) * min 1 (c.acceleration * d))
            * max 0 (1 - c.damping * d) ∧
      (Player.update c fc i cf cr cv g d).2.z
        = (cv.z + ((targetVelocity c i cf cr cv).z - cv.z) * min 1 (c.acceleration * d))
            * max 0 (1 - c.damping * d)) ∧
    (moveDirRaw i (flattenNormalize cf) (flattenNormalize cr) ≠ Vec3.zero →
      (Player.update c fc i cf cr cv g d).2.x
        = cv.x + ((targetVelocity c i cf cr cv).x - cv.x) * min 1 (c.acceleration * d) ∧
      (Player.update c fc i cf cr cv g d).2.z
        = cv.z + ((targetVelocity c i cf cr cv).z - cv.z) * min 1 (c.acceleration * d)) := by
  constructor
  · intro h0
    have hc : (moveDirOf i cf cr).lengthSquared = 0 :=
      (normalizeV_ls_zero_iff (moveDirRaw i (flattenNormalize cf) (flattenNormalize cr))).mpr h0
    rw [update_x_eq, update_z_eq, if_pos hc, if_pos hc]
    exact ⟨rfl, rfl⟩
  · intro h0
    have hc : ¬ (moveDirOf i cf cr).lengthSquared = 0 := fun hh =>
      h0 ((normalizeV_ls_zero_iff
        (moveDirRaw i (flattenNormalize cf) (flattenNormalize cr))).mp hh)
    rw [update_x_eq, update_z_eq, if_neg hc, if_neg hc]
    exact ⟨rfl, rfl⟩

theorem moveDirWS_zero :
    moveDirRaw inputWS (flattenNormalize camF0) (flattenNormalize camR0) = Vec3.zero := by
  unfold moveDirRaw
  simp only [inputWS, if_true, if_false]
  unfold Vec3.addV Vec3.subV Vec3.zero
  simp only [Vec3.mk.injEq]
  norm_num

theorem moveDirOfWS_zero : moveDirOf inputWS camF0 camR0 = Vec3.zero := by
  unfold moveDirOf
  rw [moveDirWS_zero, normalizeV_zero]

theorem targetVelWS_x :
    (targetVelocity defaultPlayerConsts inputWS camF0 camR0 vel0).x = 0 := by
  unfold targetVelocity
  dsimp only
  rw [moveDirOfWS_zero]
  show (0 : ℝ) * _ = 0
  ring

/-- Counterexample to C8 as stated: with both the forward and backward keys
held, directional input is held, yet the accumulated movement direction is
zero and the damping factor is applied anyway, so the resulting x velocity is
the blended value times 0.92 rather than the blended value itself. -/
theorem damping_despite_input_cex :
    inputWS.w = true ∧
    (Player.update defaultPlayerConsts 0 inputWS camF0 camR0 vel0 false (1 / 100)).2.x
      ≠ vel0.x + ((targetVelocity defaultPlayerConsts inputWS camF0 camR0 vel0).x - vel0.x)
          * min 1 (defaultPlayerConsts.acceleration * (1 / 100)) := by
  refine ⟨rfl, ?_⟩
  have hc : (moveDirOf inputWS camF0 camR0).lengthSquared = 0 := by
    rw [moveDirOfWS_zero]
    exact (lengthSquared_eq_zero Vec3.zero).mpr rfl
  rw [update_x_eq, if_pos hc]
  have hlerp : (Vec3.lerpV vel0 (targetVelocity defaultPlayerConsts inputWS camF0 camR0 vel0)
        (min 1 (defaultPlayerConsts.acceleration * (1 / 100)))).x
      = vel0.x + ((targetVelocity defaultPlayerConsts inputWS camF0 camR0 vel0).x - vel0.x)
          * min 1 (defaultPlayerConsts.acceleration * (1 / 100)) := rfl
  rw [hlerp, targetVelWS_x]
  have hv : vel0.x = 5 := rfl
  have hacc : defaultPlayerConsts.acceleration = 40 := rfl
  have hdamp : defaultPlayerConsts.damping = 8 := rfl
  rw [hv, hacc, hdamp]
  have hmin : min (1 : ℝ) (40 * (1 / 100)) = 2 / 5 := by
    rw [min_eq_right] <;> norm_num
  have hmax : max (0 : ℝ) (1 - 8 * (1 / 100)) = 23 / 25 := by
    rw [max_eq_right] <;> norm_num
  rw [hmin, hmax]
  norm_num

/-- Witness for the amended C8 at the cancelling-input example: since the
accumulated direction is zero, both horizontal components are the blended
values times the damping factor. -/
theorem velocity_blend_damping_witness :
    moveDirRaw inputWS (flattenNormalize camF0) (flattenNormalize camR0) = Vec3.zero ∧
    ((Player.update defaultPlayerConsts 0 inputWS camF0 camR0 vel0 false (1 / 100)).2.x
       = (vel0.x + ((targetVelocity defaultPlayerConsts inputWS camF0 camR0 vel0).x - vel0.x)
           * min 1 (defaultPlayerConsts.acceleration * (1 / 100)))
           * max 0 (1 - defaultPlayerConsts.damping * (1 / 100)) ∧
     (Player.update defaultPlayerConsts 0 inputWS camF0 camR0 vel0 false (1 / 100)).2.z
       = (vel0.z + ((targetVelocity defaultPlayerConsts inputWS camF0 camR0 vel0).z - vel0.z)
           * min 1 (defaultPlayerConsts.acceleration * (1 / 100)))
           * max 0 (1 - defaultPlayerConsts.damping * (1 / 100))) :=
  ⟨moveDirWS_zero,
    (velocity_blend_damping defaultPlayerConsts 0 inputWS camF0 camR0 vel0 false
      (1 / 100)).1 moveDirWS_zero⟩
